import Mathlib

/-!
Shallow embedding of the cast_control adapter layer
(src/cast_control/wrapper.py and src/cast_control/run.py) and proofs
checking the natural-language specification against it.

Numbers that Python represents as floats are modelled as rationals;
Python `None` is modelled as `Option.none`, and Python truthiness of an
optional number (respectively string) is `some q` with `q` nonzero
(respectively a nonempty string).  Constants imported from
cast_control/base.py, which is not part of the sources, are modelled
from the spec and marked as such in their doc comments.
-/

namespace CastControl

/-- Modelled from the spec: the protocol time unit is microseconds, so the
microseconds-per-second factor from base.py is 1000000. -/
def US_IN_SEC : ℚ := 1000000

/-- Modelled from the spec: mpris_server's BEGINNING constant, time zero. -/
def BEGINNING : ℚ := 0

/-- The "no duration known" sentinel.  base.py is absent from the sources,
but wrapper.py documents the value with the comment `NO_DURATION = None`,
so it is the empty optional, not zero. -/
def NO_DURATION : Option ℚ := none

/-- Modelled from the spec: a zero-magnitude volume delta, from base.py.
The spec says set_volume "never issues a zero-delta command", so the
threshold is 0. -/
def NO_DELTA : ℚ := 0

/-- wrapper.py: RESOLUTION = 1, the number of sub-second decimal digits kept
when rounding the current time in has_current_time. -/
def RESOLUTION : ℕ := 1

/-- wrapper.py: MAX_TITLES = 3. -/
def MAX_TITLES : ℕ := 3

/-- Modelled from the spec: the default icon asset path from base.py,
stringified.  Only its identity matters to the claims. -/
def DEFAULT_THUMB : String := "DEFAULT_THUMB"

/-- Modelled from the spec: the light icon asset path from base.py. -/
def LIGHT_THUMB : String := "LIGHT_THUMB"

/-- Modelled from the spec: the default disc number from base.py.  Its
numeric value is irrelevant to every claim. -/
def DEFAULT_DISC_NO : ℤ := 1

/-- Modelled from the spec: the dedicated nonzero process exit code for
"device not found" (RC_NO_CHROMECAST in base.py).  The spec fixes it only
to be a distinct nonzero constant. -/
def RC_NO_CHROMECAST : ℕ := 1

/-- Modelled from the spec: the "no device" default identifier from base.py. -/
def NO_DEVICE : String := "NO_DEVICE"

/-- Modelled from the spec: the global saved-arguments file path (ARGS in
base.py), as a plain string. -/
def ARGS : String := "args"

/-- Python truthiness of an optional number: not None and nonzero. -/
def truthyQ : Option ℚ → Bool
  | none => false
  | some q => q ≠ 0

/-- Python truthiness of an optional string: not None and nonempty. -/
def truthyS : Option String → Bool
  | none => false
  | some s => s ≠ ""

/-- Python int() on a rational: truncation toward zero. -/
def pyInt (q : ℚ) : ℤ :=
  if q < 0 then -(Int.floor (-q)) else Int.floor q

/-- Round-half-to-even on a rational, the tie-breaking rule of Python's
round(). -/
def roundHalfEven (x : ℚ) : ℤ :=
  let f := Int.floor x
  let r := x - f
  if r < 1 / 2 then f
  else if 1 / 2 < r then f + 1
  else if f % 2 = 0 then f else f + 1

/-- Python round(x, n) for nonnegative n, on rationals. -/
def pyRound (x : ℚ) (n : ℕ) : ℚ :=
  (roundHalfEven (x * 10 ^ n) : ℚ) / 10 ^ n

/-- The fields of a pychromecast MediaStatus that the wrapper reads.
Every field the device may omit is optional. -/
structure MediaStatus where
  duration : Option ℚ
  adjusted_current_time : Option ℚ
  current_time : Option ℚ
  artist : Option String
  album_name : Option String
  media_metadata : Option (List (String × String))
  track : Option ℤ
  content_id : Option String

/-- The fields of a pychromecast CastStatus that the wrapper reads. -/
structure CastStatus where
  volume_level : ℚ
  icon_url : Option String
  volume_muted : Bool

/-- One snapshot of the device handle, as seen through the wrapper's
read-only accessors (StatusMixin): the optional media status, the optional
cast status, the media controller's title and thumbnail, the application
display name, the light-icon flag and whether the YouTube sub-controller
is active. -/
structure Device where
  media_status : Option MediaStatus
  cast_status : Option CastStatus
  mc_title : Option String
  mc_thumbnail : Option String
  app_display_name : Option String
  light_icon : Bool
  yt_active : Bool

/-- TimeMixin.get_current_position: the adjusted current time converted to
microseconds and truncated to an integer, or BEGINNING when the status or
the field is missing or zero. -/
def get_current_position (ms : Option MediaStatus) : ℚ :=
  match ms with
  | none => BEGINNING
  | some status =>
    match status.adjusted_current_time with
    | none => BEGINNING
    | some p => if p ≠ 0 then ((pyInt (p * US_IN_SEC) : ℤ) : ℚ) else BEGINNING

/-- TimeMixin.get_duration.  The wrapper state `_longest_duration` (the
watermark) is passed and returned explicitly: the result is the pair of
the returned duration and the watermark after the call. -/
def get_duration (ms : Option MediaStatus) (longest : Option ℚ) :
    Option ℚ × Option ℚ :=
  let duration : Option ℚ := ms.bind MediaStatus.duration
  let current : ℚ := get_current_position ms
  if truthyQ duration then (duration.map (fun d => d * US_IN_SEC), longest)
  else if truthyQ longest ∧ longest.getD 0 > current then (longest, longest)
  else if current ≠ 0 then (some current, some current)
  else (NO_DURATION, longest)

/-- TimeMixin.has_current_time: false when the status or its current_time
is missing or zero; otherwise whether the current time rounded to
RESOLUTION decimal digits exceeds BEGINNING. -/
def has_current_time (ms : Option MediaStatus) : Bool :=
  match ms with
  | none => false
  | some status =>
    match status.current_time with
    | none => false
    | some ct =>
      if ct = 0 then false
      else decide (pyRound ct RESOLUTION > BEGINNING)

/-- TimeMixin.on_new_status: the status-change hook clears the watermark
to None whenever has_current_time is false.  Returns the new watermark. -/
def on_new_status (ms : Option MediaStatus) (longest : Option ℚ) : Option ℚ :=
  if has_current_time ms then longest else none

/-- Mirror of the spec's wording for get_duration (section 4.4 / claim C1):
an explicitly reported duration is returned scaled, the watermark
untouched; otherwise a non-empty watermark strictly above the current
position is returned; otherwise a nonzero current position becomes the new
watermark and is returned; otherwise the no-duration sentinel. -/
def get_duration_spec (ms : Option MediaStatus) (longest : Option ℚ) :
    Option ℚ × Option ℚ :=
  match ms.bind MediaStatus.duration with
  | some d => (some (d * US_IN_SEC), longest)
  | none =>
    let current := get_current_position ms
    if longest.isSome ∧ longest.getD 0 > current then (longest, longest)
    else if current ≠ 0 then (some current, some current)
    else (NO_DURATION, longest)

/-- Boolean order on watermarks: the empty watermark is below everything,
numeric watermarks are compared as rationals. -/
def wleB : Option ℚ → Option ℚ → Bool
  | none, _ => true
  | some _, none => false
  | some a, some b => decide (a ≤ b)

/-- Folding get_duration over a list of status snapshots, keeping only the
watermark state. -/
def durations_trace (w : Option ℚ) : List (Option MediaStatus) → Option ℚ
  | [] => w
  | ms :: rest => durations_trace (get_duration ms w).2 rest

/-- The fixed-arity Titles tuple (wrapper.py class Titles), missing
positions default to None. -/
structure Titles where
  title : Option String := none
  artist : Option String := none
  album : Option String := none

/-- TitlesMixin.get_subtitle: the subtitle entry of the media metadata
mapping, when the media status, a nonempty metadata mapping and the
subtitle key are all present. -/
def get_subtitle (d : Device) : Option String :=
  match d.media_status with
  | none => none
  | some s =>
    match s.media_metadata with
    | none => none
    | some md =>
      if md ≠ [] ∧ (md.lookup "subtitle").isSome then md.lookup "subtitle"
      else none

/-- Appending an optional string to the working list only when it is
truthy, as each `if x: titles.append(x)` block does. -/
def appendIfTruthy (titles : List String) (x : Option String) : List String :=
  match x with
  | some s => if s ≠ "" then titles ++ [s] else titles
  | none => titles

/-- TitlesMixin.titles before packing: title, subtitle, artist and album
(the latter two only when a media status is present), then the app display
name, each appended only if truthy, truncated to MAX_TITLES. -/
def titlesList (d : Device) : List String :=
  let t1 := appendIfTruthy [] d.mc_title
  let t2 := appendIfTruthy t1 (get_subtitle d)
  let t3 :=
    match d.media_status with
    | some s => appendIfTruthy (appendIfTruthy t2 s.artist) s.album_name
    | none => t2
  let t4 := appendIfTruthy t3 d.app_display_name
  t4.take MAX_TITLES

/-- TitlesMixin.titles: the packed Titles tuple. -/
def titles (d : Device) : Titles :=
  let l := titlesList d
  ⟨l[0]?, l[1]?, l[2]?⟩

/-- The singleton list [s] when the optional string is truthy, else []. -/
def optTruthy (x : Option String) : List String :=
  match x with
  | some s => if s ≠ "" then [s] else []
  | none => []

/-- Mirror of the spec's wording for the title aggregation (section 4.3 /
claim C4): the ordered list of the present (truthy) sources, in priority
order, before truncation. -/
def prioritySources (d : Device) : List String :=
  optTruthy d.mc_title ++ optTruthy (get_subtitle d) ++
    optTruthy (d.media_status.bind MediaStatus.artist) ++
    optTruthy (d.media_status.bind MediaStatus.album_name) ++
    optTruthy d.app_display_name

/-- VolumeMixin.get_volume: None without a cast status, else the volume
level. -/
def get_volume (cs : Option CastStatus) : Option ℚ :=
  match cs with
  | none => none
  | some c => some c.volume_level

/-- A directional volume command issued to the device handle. -/
inductive VolCmd where
  | up (delta : ℚ)
  | down (delta : ℚ)

/-- VolumeMixin.set_volume, modelled by its effect: the list of volume
commands issued.  When get_volume is None the subtraction `val - curr`
raises a TypeError before any command can be issued; that outcome is
`none`. -/
def set_volume (cs : Option CastStatus) (val : ℚ) : Option (List VolCmd) :=
  match get_volume cs with
  | none => none
  | some curr =>
    let delta := val - curr
    if delta > NO_DELTA then some [VolCmd.up delta]
    else if delta < NO_DELTA then some [VolCmd.down |delta|]
    else some []

/-- IconsMixin.get_art_url: thumbnail, then cast-status icon, then the
light or default asset. -/
def get_art_url (d : Device) : String :=
  if truthyS d.mc_thumbnail then d.mc_thumbnail.getD ""
  else if truthyS (d.cast_status.bind CastStatus.icon_url) then
    (d.cast_status.bind CastStatus.icon_url).getD ""
  else if d.light_icon then LIGHT_THUMB
  else DEFAULT_THUMB

/-- Python substring membership `sub in s` on character lists. -/
def containsSub (sub : List Char) : List Char → Bool
  | [] => sub.isEmpty
  | c :: rest => sub.isPrefixOf (c :: rest) || containsSub sub rest

/-- Python substring membership on strings. -/
def strContains (s sub : String) : Bool :=
  containsSub sub.toList s.toList

/-- Python str.lower, restricted to the ASCII mapping. -/
def lowerStr (s : String) : String :=
  String.mk (s.toList.map Char.toLower)

/-- wrapper.py: the long-form YouTube host fragment. -/
def YT_LONG : String := "youtube.com/"

/-- wrapper.py: the short-form YouTube host fragment. -/
def YT_SHORT : String := "youtu.be/"

/-- wrapper.py: YT_VID_URL, the long-form watch URL prefix. -/
def YT_VID_URL : String := "https://" ++ YT_LONG ++ "watch?v="

/-- is_youtube: case-insensitive containment of either host fragment. -/
def is_youtube (uri : String) : Bool :=
  strContains (lowerStr uri) YT_LONG || strContains (lowerStr uri) YT_SHORT

/-- Python str.split for a single-character separator, on character
lists.  Mirrors `s.split(a)`: adjacent and boundary separators produce
empty pieces, and the result is never empty. -/
def pySplitChar (a : Char) : List Char → List (List Char)
  | [] => [[]]
  | c :: rest =>
    if c = a then [] :: pySplitChar a rest
    else
      match pySplitChar a rest with
      | [] => [[c]]
      | p :: ps => (c :: p) :: ps

/-- Python str.split for a two-character separator made of two distinct
characters, on character lists.  Mirrors `s.split(ab)` scanning left to
right without overlap. -/
def pySplitPair (a b : Char) : List Char → List (List Char)
  | [] => [[]]
  | [c] => [[c]]
  | c1 :: c2 :: rest =>
    if c1 = a ∧ c2 = b then [] :: pySplitPair a b rest
    else
      match pySplitPair a b (c2 :: rest) with
      | [] => [[c1]]
      | p :: ps => (c1 :: p) :: ps

/-- get_video_id (wrapper.py): None for non-YouTube URIs; for the
long-form pattern the last piece of the split on the marker (v followed
by the equals sign), for the short-form pattern the last piece of the
split on the slash; a truthy result containing an ampersand is cut at its
first ampersand. -/
def get_video_id (uri : String) : Option String :=
  if is_youtube uri = false then none
  else
    let video_id : Option (List Char) :=
      if strContains uri YT_LONG then
        some ((pySplitPair 'v' '=' uri.toList).getLastD [])
      else if strContains uri YT_SHORT then
        some ((pySplitChar '/' uri.toList).getLastD [])
      else none
    match video_id with
    | none => none
    | some v =>
      if v ≠ [] ∧ containsSub ['&'] v then
        some (String.mk ((pySplitChar '&' v).headD v))
      else some (String.mk v)

/-- Modelled from the spec: mpris_server's get_dbus_name sanitiser is an
external collaborator whose exact output never matters to a claim; it is
treated as the identity on the optional title, with None as the empty
name. -/
def get_dbus_name (s : Option String) : String := s.getD ""

/-- wrapper.py get_track_id, over the modelled dbus name. -/
def get_track_id (s : Option String) : String :=
  "/track/" ++ get_dbus_name s

/-- ControllersMixin._get_url: the media-status content id, rewritten to
the long-form watch URL when it is truthy, contains no "http" and the
YouTube controller is active. -/
def get_url (d : Device) : Option String :=
  let content_id := d.media_status.bind MediaStatus.content_id
  if truthyS content_id ∧ strContains (content_id.getD "") "http" = false ∧
      d.yt_active then
    some (YT_VID_URL ++ content_id.getD "")
  else content_id

/-- The fixed-schema metadata record of MetadataMixin.metadata, one field
per mpris/xesam key in source order. -/
structure Metadata where
  trackid : String
  length : Option ℚ
  artUrl : String
  url : Option String
  title : Option String
  artist : List String
  album : Option String
  albumArtist : List String
  discNumber : ℤ
  trackNumber : Option ℤ
  comment : List String

/-- MetadataMixin.metadata.  The watermark is threaded through the
embedded get_duration call; the result pairs the record with the
watermark after the call. -/
def metadata (d : Device) (w : Option ℚ) : Metadata × Option ℚ :=
  let ts := titles d
  let artists : List String :=
    match ts.artist with
    | some a => if a ≠ "" then [a] else []
    | none => []
  let track_no : Option ℤ := d.media_status.bind MediaStatus.track
  let dur := get_duration d.media_status w
  (⟨get_track_id ts.title, dur.1, get_art_url d, get_url d, ts.title,
    artists, ts.album, artists, DEFAULT_DISC_NO, track_no, []⟩, dur.2)

/-- An opaque token standing for the bound mpris Server returned by
create_adapters_and_server on success. -/
structure Server where
  tag : ℕ := 0

/-- The observable events of one pass of the discovery retry loop: a
resolution attempt with its outcome, the failure log line, and the sleep
between sweeps. -/
inductive DiscoveryEvent where
  | attempt (success : Bool)
  | logged
  | slept (wait : ℚ)

/-- run.py retry_until_found.  Resolution (create_adapters_and_server) is
the black-box `res`, giving the outcome of the k-th attempt.  The loop is
given fuel; `none` means the loop did not return within the fuel, and
`some (r, evs)` means it returned r after the event trace evs.  With
`wait = none` (retrying disabled) the loop returns the first attempt's
result immediately; otherwise every failed attempt logs and sleeps before
the next one. -/
def retry_until_found (res : ℕ → Option Server) (wait : Option ℚ) :
    ℕ → ℕ → Option (Option Server × List DiscoveryEvent)
  | 0, _ => none
  | fuel + 1, k =>
    let mpris := res k
    if mpris.isSome ∨ wait = none then
      some (mpris, [DiscoveryEvent.attempt mpris.isSome])
    else
      match retry_until_found res wait fuel (k + 1) with
      | none => none
      | some (r, evs) =>
        some (r, DiscoveryEvent.attempt false :: DiscoveryEvent.logged ::
          DiscoveryEvent.slept (wait.getD 0) :: evs)

/-- The trace of n failed sweeps with inter-sweep wait w: each failed
attempt is logged and followed by a sleep. -/
def failTrace (w : ℚ) : ℕ → List DiscoveryEvent
  | 0 => []
  | n + 1 =>
    DiscoveryEvent.attempt false :: DiscoveryEvent.logged ::
      DiscoveryEvent.slept w :: failTrace w n

/-- run.py: `device = name or host or uuid or NO_DEVICE`, the Python
or-chain over truthy strings. -/
def firstTruthy (name host uuid : Option String) : String :=
  if truthyS name then name.getD ""
  else if truthyS host then host.getD ""
  else if truthyS uuid then uuid.getD ""
  else NO_DEVICE

/-- The outcome of run_server: enter the blocking server loop (recording
whether the light icon was requested), or raise
NoChromecastFoundException for the chosen device identifier. -/
inductive RunResult where
  | loop (iconSet : Bool)
  | notFound (device : String)

/-- run.py run_server, composed with the retry loop; `none` when the
retry loop never returns within its fuel. -/
def run_server (res : ℕ → Option Server) (name host uuid : Option String)
    (wait : Option ℚ) (fuel : ℕ) (icon : Bool) : Option RunResult :=
  match retry_until_found res wait fuel 0 with
  | none => none
  | some (mpris, _) =>
    match mpris with
    | some _ => some (RunResult.loop icon)
    | none => some (RunResult.notFound (firstTruthy name host uuid))

/-- The outcome of run_safe: the blocking loop, or a logged warning
followed by a process exit with the given code. -/
inductive SafeResult where
  | loop (iconSet : Bool)
  | exited (code : ℕ)

/-- run.py run_safe: run_server with NoChromecastFoundException converted
to sys.exit(RC_NO_CHROMECAST) after a warning. -/
def run_safe (res : ℕ → Option Server) (name host uuid : Option String)
    (wait : Option ℚ) (fuel : ℕ) (icon : Bool) : Option SafeResult :=
  match run_server res name host uuid wait fuel icon with
  | none => none
  | some (RunResult.loop i) => some (SafeResult.loop i)
  | some (RunResult.notFound _) => some (SafeResult.exited RC_NO_CHROMECAST)

/-- run.py DaemonArgs: the per-session identifying parameters. -/
structure DaemonArgs where
  name : Option String
  host : Option String
  uuid : Option String
  wait : Option ℚ
  retry_wait : Option ℚ
  icon : Bool
  log_level : String

/-- DaemonArgs.file: the per-device file path, ARGS with its stem replaced
by the chosen device identifier followed by "-args".  (Computed by the
source but, notably, never used by load, save or delete.) -/
def DaemonArgs.file (a : DaemonArgs) : String :=
  firstTruthy a.name a.host a.uuid ++ "-args"

/-- The filesystem slice relevant to DaemonArgs: a map from path to the
pickled record stored there, none when the file is absent. -/
def ArgsFS : Type := String → Option DaemonArgs

/-- An empty filesystem. -/
def emptyFS : ArgsFS := fun _ => none

/-- DaemonArgs.save: writes the pickled record at the fixed global ARGS
path (not at DaemonArgs.file). -/
def DaemonArgs.save (fs : ArgsFS) (a : DaemonArgs) : ArgsFS :=
  fun p => if p = ARGS then some a else fs p

/-- DaemonArgs.load: reads the fixed global ARGS path, None when the file
is absent. -/
def DaemonArgs.load (fs : ArgsFS) : Option DaemonArgs :=
  fs ARGS

/-- DaemonArgs.delete: unlinks the fixed global ARGS path if it exists;
a no-op when the file is absent. -/
def DaemonArgs.delete (fs : ArgsFS) : ArgsFS :=
  fun p => if p = ARGS then none else fs p

deriving instance DecidableEq for Titles
deriving instance DecidableEq for VolCmd
deriving instance DecidableEq for Server
deriving instance DecidableEq for DiscoveryEvent
deriving instance DecidableEq for RunResult
deriving instance DecidableEq for SafeResult
deriving instance DecidableEq for DaemonArgs
deriving instance DecidableEq for Metadata

/-- A media status with an explicit duration, used to instantiate
theorems at a concrete input. -/
def msDur : MediaStatus := ⟨some 90, some 3, some 3, none, none, none, none, none⟩

/-- A media status without a duration but with a current position, used to
instantiate theorems at a concrete input. -/
def msNoDur : MediaStatus := ⟨none, some 3, some 3, none, none, none, none, none⟩

/-- A concrete cast status at volume level one. -/
def csOne : CastStatus := ⟨1, none, false⟩

/-- A resolution oracle that never finds a device. -/
def resNever : ℕ → Option Server := fun _ => none

/-- A resolution oracle that fails on the first attempt and succeeds on
every later one. -/
def resSecond : ℕ → Option Server := fun k => if k = 0 then none else some {}

/-- Concrete daemon arguments for a device named A. -/
def argsA : DaemonArgs :=
  ⟨some "Living Room", none, none, none, none, false, "WARN"⟩

/-- Concrete daemon arguments for a device named B. -/
def argsB : DaemonArgs :=
  ⟨some "Bedroom", none, none, none, none, false, "WARN"⟩

/-- Whether the two-character sequence a b occurs (contiguously) in the
list, matching the occurrences Python finds for a two-character
separator. -/
def containsPair (a b : Char) : List Char → Bool
  | [] => false
  | [_] => false
  | c1 :: c2 :: rest => (c1 == a && c2 == b) || containsPair a b (c2 :: rest)

/-- A device handle with every source of data absent. -/
def devEmpty : Device := ⟨none, none, none, none, none, false, false⟩

/-- A device handle with no media status but a present application
display name. -/
def devApp : Device := ⟨none, none, none, none, some "YouTube", false, false⟩

theorem lem_wleB_refl (w : Option ℚ) : wleB w w = true := by
  cases w with
  | none => rfl
  | some a => simp [wleB]

theorem lem_wleB_trans (a b c : Option ℚ) (h1 : wleB a b = true)
    (h2 : wleB b c = true) : wleB a c = true := by
  cases a with
  | none => rfl
  | some x =>
    cases b with
    | none => exact absurd h1 (by simp [wleB])
    | some y =>
      cases c with
      | none => exact absurd h2 (by simp [wleB])
      | some z =>
        simp only [wleB, decide_eq_true_eq] at h1 h2 ⊢
        exact le_trans h1 h2

theorem lem_duration_step (ms : Option MediaStatus) (w : Option ℚ)
    (hd : truthyQ (ms.bind MediaStatus.duration) = false) (hw : w ≠ some 0) :
    wleB w (get_duration ms w).2 = true ∧ (get_duration ms w).2 ≠ some 0 := by
  by_cases hmid : truthyQ w = true ∧ w.getD 0 > get_current_position ms
  · have hval : (get_duration ms w).2 = w := by
      simp [get_duration, hd, hmid]
    rw [hval]
    exact ⟨lem_wleB_refl w, hw⟩
  · by_cases hc : get_current_position ms = 0
    · have hval : (get_duration ms w).2 = w := by
        rw [hc] at hmid
        simp [get_duration, hd, hmid, hc]
      rw [hval]
      exact ⟨lem_wleB_refl w, hw⟩
    · have hval : (get_duration ms w).2 = some (get_current_position ms) := by
        simp [get_duration, hd, hmid, hc]
      rw [hval]
      constructor
      · cases w with
        | none => rfl
        | some l =>
          have hl : l ≠ 0 := by
            intro h
            exact hw (by rw [h])
          have hle : ¬ l > get_current_position ms := by
            intro hgt
            exact hmid ⟨by simp [truthyQ, hl], by simpa using hgt⟩
          simp only [wleB, decide_eq_true_eq]
          exact le_of_not_lt hle
      · simp only [Ne, Option.some.injEq]
        intro h0
        exact hc h0

theorem lem_duration_trace (sts : List (Option MediaStatus)) :
    ∀ (w : Option ℚ),
    (∀ ms ∈ sts, truthyQ (ms.bind MediaStatus.duration) = false) →
    w ≠ some 0 →
    wleB w (durations_trace w sts) = true ∧ durations_trace w sts ≠ some 0 := by
  induction sts with
  | nil =>
    intro w _ hw
    exact ⟨lem_wleB_refl w, hw⟩
  | cons ms rest ih =>
    intro w h hw
    have hms : truthyQ (ms.bind MediaStatus.duration) = false := h ms (by simp)
    have hstep := lem_duration_step ms w hms hw
    have hrest :=
      ih (get_duration ms w).2 (fun m hm => h m (by simp [hm])) hstep.2
    exact ⟨lem_wleB_trans _ _ _ hstep.1 hrest.1, hrest.2⟩

/-- C1: get_duration returns an explicitly reported (nonzero) duration
scaled to microseconds with the watermark untouched; otherwise a
non-empty watermark strictly above the current position is returned
unchanged; otherwise a nonzero current position becomes the new watermark
and is returned; otherwise the no-duration sentinel (None, not zero) is
returned.  The hypotheses exclude a reported duration of exactly zero
(which Python truthiness treats as no duration) and the unreachable
watermark value zero (the watermark is only ever set to a nonzero
position or cleared to None). -/
theorem c1_get_duration_matches_spec (ms : Option MediaStatus)
    (longest : Option ℚ) (hdur : ms.bind MediaStatus.duration ≠ some 0)
    (hw : longest ≠ some 0) :
    get_duration ms longest = get_duration_spec ms longest := by
  cases hd : ms.bind MediaStatus.duration with
  | some d =>
    have hd0 : d ≠ 0 := by
      intro h
      exact hdur (by rw [hd, h])
    simp [get_duration, get_duration_spec, hd, truthyQ, hd0]
  | none =>
    cases longest with
    | none => simp [get_duration, get_duration_spec, hd, truthyQ]
    | some l =>
      have hl : l ≠ 0 := by
        intro h
        exact hw (by rw [h])
      simp [get_duration, get_duration_spec, hd, truthyQ, hl]

theorem c1_witness :
    ((some msDur : Option MediaStatus).bind MediaStatus.duration ≠ some 0) ∧
      get_duration (some msDur) (some 3) =
        get_duration_spec (some msDur) (some 3) :=
  ⟨by decide,
    c1_get_duration_matches_spec (some msDur) (some 3) (by decide) (by decide)⟩

/-- C2: across any sequence of get_duration calls in which no status
reports a (truthy) duration, the watermark never decreases, starting from
any reachable watermark (None or nonzero); and whenever on_new_status
fires while has_current_time is false (no current playback time after
rounding), the watermark is cleared to None. -/
theorem c2_watermark_monotone_and_reset :
    (∀ (sts : List (Option MediaStatus)) (w : Option ℚ),
        (∀ ms ∈ sts, truthyQ (ms.bind MediaStatus.duration) = false) →
        w ≠ some 0 → wleB w (durations_trace w sts) = true) ∧
    (∀ (ms : Option MediaStatus) (w : Option ℚ),
        has_current_time ms = false → on_new_status ms w = none) := by
  constructor
  · intro sts w h hw
    exact (lem_duration_trace sts w h hw).1
  · intro ms w h
    simp [on_new_status, h]

theorem c2_witness :
    ((∀ ms ∈ [some msNoDur, some msNoDur],
        truthyQ (ms.bind MediaStatus.duration) = false) ∧
      wleB none (durations_trace none [some msNoDur, some msNoDur]) = true) ∧
    (has_current_time none = false ∧ on_new_status none (some 5) = none) :=
  ⟨⟨by decide,
      c2_watermark_monotone_and_reset.1 [some msNoDur, some msNoDur] none
        (by decide) (by decide)⟩,
    by decide, c2_watermark_monotone_and_reset.2 none (some 5) (by decide)⟩

theorem lem_appendIfTruthy (l : List String) (x : Option String) :
    appendIfTruthy l x = l ++ optTruthy x := by
  cases x with
  | none => simp [appendIfTruthy, optTruthy]
  | some s =>
    by_cases h : s = ""
    · simp [appendIfTruthy, optTruthy, h]
    · simp [appendIfTruthy, optTruthy, h]

theorem lem_optTruthy_none : optTruthy none = [] := rfl

theorem lem_titlesList_eq (d : Device) :
    titlesList d = (prioritySources d).take 3 := by
  unfold titlesList prioritySources MAX_TITLES
  cases hms : d.media_status with
  | none =>
    simp [lem_appendIfTruthy, hms, lem_optTruthy_none, List.append_assoc]
  | some s =>
    simp [lem_appendIfTruthy, hms, List.append_assoc]

/-- C4: the Titles aggregation is the priority-ordered list of present
(truthy) sources - media title, metadata subtitle, artist, album, app
display name - with missing sources skipped, truncated to at most three
entries packed into the earliest tuple positions, remaining positions
empty. -/
theorem c4_titles_priority (d : Device) :
    titlesList d = (prioritySources d).take 3 ∧
    (titlesList d).length ≤ 3 ∧
    titles d = ⟨(prioritySources d)[0]?, (prioritySources d)[1]?,
      (prioritySources d)[2]?⟩ := by
  have h := lem_titlesList_eq d
  refine ⟨h, ?_, ?_⟩
  · rw [h]
    exact List.length_take_le 3 _
  · unfold titles
    dsimp only
    rw [h]
    rw [List.getElem?_take_of_lt (by norm_num : (0 : ℕ) < 3)]
    rw [List.getElem?_take_of_lt (by norm_num : (1 : ℕ) < 3)]
    rw [List.getElem?_take_of_lt (by norm_num : (2 : ℕ) < 3)]

/-- C5: with a cast status present, set_volume issues exactly one
volume-up command for a positive delta, exactly one volume-down command
for a negative delta, and no command at all for a zero delta; in
particular set_volume applied to the current volume issues no command. -/
theorem c5_set_volume_directional (c : CastStatus) (v : ℚ) :
    (v > c.volume_level →
      set_volume (some c) v = some [VolCmd.up (v - c.volume_level)]) ∧
    (v < c.volume_level →
      set_volume (some c) v = some [VolCmd.down (c.volume_level - v)]) ∧
    (v = c.volume_level → set_volume (some c) v = some []) ∧
    set_volume (some c) ((get_volume (some c)).getD 0) = some [] := by
  refine ⟨?_, ?_, ?_, ?_⟩
  · intro h
    have h1 : v - c.volume_level > NO_DELTA := by
      unfold NO_DELTA
      linarith
    simp [set_volume, get_volume, h1]
  · intro h
    have hlt : v - c.volume_level < 0 := by linarith
    have h1 : ¬ v - c.volume_level > NO_DELTA := by
      unfold NO_DELTA
      linarith
    have h2 : v - c.volume_level < NO_DELTA := by
      unfold NO_DELTA
      linarith
    have habs : |v - c.volume_level| = c.volume_level - v := by
      rw [abs_of_neg hlt]
      ring
    simp [set_volume, get_volume, h1, h2, habs]
  · intro h
    have h1 : ¬ v - c.volume_level > NO_DELTA := by
      unfold NO_DELTA
      rw [h]
      simp
    have h2 : ¬ v - c.volume_level < NO_DELTA := by
      unfold NO_DELTA
      rw [h]
      simp
    simp [set_volume, get_volume, h1, h2]
  · simp [set_volume, get_volume, NO_DELTA]

theorem lem_retry_diverges (res : ℕ → Option Server) (w : ℚ)
    (h : ∀ j, res j = none) :
    ∀ (fuel k : ℕ), retry_until_found res (some w) fuel k = none := by
  intro fuel
  induction fuel with
  | zero => intro k; rfl
  | succ f ih =>
    intro k
    simp only [retry_until_found, h k]
    simp [ih (k + 1)]

theorem lem_retry_step (res : ℕ → Option Server) (w : ℚ) (fuel k : ℕ)
    (h0 : res k = none) :
    retry_until_found res (some w) (fuel + 1) k =
      match retry_until_found res (some w) fuel (k + 1) with
      | none => none
      | some (r, evs) =>
        some (r, DiscoveryEvent.attempt false :: DiscoveryEvent.logged ::
          DiscoveryEvent.slept w :: evs) := by
  conv_lhs => rw [retry_until_found]
  simp [h0]

theorem lem_retry_succeeds (res : ℕ → Option Server) (w : ℚ) :
    ∀ (n k : ℕ), (∀ j, j < n → res (k + j) = none) →
    (res (k + n)).isSome = true →
    retry_until_found res (some w) (n + 1) k =
      some (res (k + n), failTrace w n ++ [DiscoveryEvent.attempt true]) := by
  intro n
  induction n with
  | zero =>
    intro k _ hs
    have hs' : (res k).isSome = true := by simpa using hs
    conv_lhs => rw [retry_until_found]
    simp [hs', failTrace]
  | succ m ih =>
    intro k h hs
    have h0 : res k = none := by
      have := h 0 (by omega)
      simpa using this
    have hshift : ∀ j, j < m → res (k + 1 + j) = none := by
      intro j hj
      have e : k + 1 + j = k + (j + 1) := by omega
      rw [e]
      exact h (j + 1) (by omega)
    have hsucc : (res (k + 1 + m)).isSome = true := by
      have e : k + 1 + m = k + (m + 1) := by omega
      rw [e]
      exact hs
    have ihh := ih (k + 1) hshift hsucc
    have e : k + 1 + m = k + (m + 1) := by omega
    rw [e] at ihh
    rw [lem_retry_step res w (m + 1) k h0, ihh]
    simp [failTrace]

/-- C6: with the inter-sweep wait disabled and a failing first resolution,
the retry loop returns empty after exactly one attempt and no sleep; with
a wait configured and a never-resolving device the loop never returns
under any fuel; with a wait configured and a first success at attempt n,
the loop returns that result after a trace of n failed attempts each
followed by a log and a sleep of the wait. -/
theorem c6_retry_loop :
    (∀ (res : ℕ → Option Server) (fuel : ℕ), res 0 = none →
        retry_until_found res none (fuel + 1) 0 =
          some (none, [DiscoveryEvent.attempt false])) ∧
    (∀ (res : ℕ → Option Server) (w : ℚ) (fuel k : ℕ),
        (∀ j, res j = none) →
        retry_until_found res (some w) fuel k = none) ∧
    (∀ (res : ℕ → Option Server) (w : ℚ) (n : ℕ),
        (∀ j, j < n → res j = none) → (res n).isSome = true →
        retry_until_found res (some w) (n + 1) 0 =
          some (res n, failTrace w n ++ [DiscoveryEvent.attempt true])) := by
  refine ⟨?_, ?_, ?_⟩
  · intro res fuel h
    simp [retry_until_found, h]
  · intro res w fuel k h
    exact lem_retry_diverges res w h fuel k
  · intro res w n h hs
    have hz := lem_retry_succeeds res w n 0
      (fun j hj => by simpa using h j hj) (by simpa using hs)
    simpa using hz

theorem c6_witness :
    (resNever 0 = none ∧
      retry_until_found resNever none 1 0 =
        some (none, [DiscoveryEvent.attempt false])) ∧
    retry_until_found resNever (some 5) 3 0 = none ∧
    ((∀ j, j < 1 → resSecond j = none) ∧ (resSecond 1).isSome = true ∧
      retry_until_found resSecond (some 5) 2 0 =
        some (resSecond 1, failTrace 5 1 ++ [DiscoveryEvent.attempt true])) :=
  ⟨⟨rfl, c6_retry_loop.1 resNever 0 rfl⟩,
    c6_retry_loop.2.1 resNever 5 3 0 (fun j => rfl),
    by decide, by decide,
    c6_retry_loop.2.2 resSecond 5 1 (by decide) (by decide)⟩

/-- C7: given that the retry loop returned result r, run_server raises
the not-found condition (for the chosen device identifier) exactly when r
is empty; run_safe converts exactly that raise into an exit with the
dedicated nonzero code; and when a device was found both enter the
blocking loop. -/
theorem c7_not_found_exit (res : ℕ → Option Server)
    (name host uuid : Option String) (wait : Option ℚ) (fuel : ℕ)
    (icon : Bool) (r : Option Server) (evs : List DiscoveryEvent)
    (h : retry_until_found res wait fuel 0 = some (r, evs)) :
    (run_server res name host uuid wait fuel icon =
        some (RunResult.notFound (firstTruthy name host uuid)) ↔ r = none) ∧
    (r = none → run_safe res name host uuid wait fuel icon =
        some (SafeResult.exited RC_NO_CHROMECAST)) ∧
    (∀ s, r = some s →
      run_server res name host uuid wait fuel icon =
          some (RunResult.loop icon) ∧
        run_safe res name host uuid wait fuel icon =
          some (SafeResult.loop icon)) ∧
    RC_NO_CHROMECAST ≠ 0 := by
  cases r with
  | none =>
    refine ⟨by simp [run_server, h], ?_, ?_, by decide⟩
    · intro _
      simp [run_safe, run_server, h]
    · intro s hs
      exact absurd hs (by simp)
  | some s0 =>
    refine ⟨by simp [run_server, h], ?_, ?_, by decide⟩
    · intro hcon
      exact absurd hcon (by simp)
    · intro s _
      constructor
      · simp [run_server, h]
      · simp [run_safe, run_server, h]

theorem c7_witness :
    retry_until_found resNever none 1 0 =
        some (none, [DiscoveryEvent.attempt false]) ∧
    run_safe resNever none none none none 1 false =
      some (SafeResult.exited RC_NO_CHROMECAST) :=
  ⟨by decide,
    (c7_not_found_exit resNever none none none none 1 false none
        [DiscoveryEvent.attempt false] (by decide)).2.1 rfl⟩

/-- C9 (corrected): with the media status empty the original claim fails,
because metadata() also draws on the application display name (titles)
and on the stored watermark (length); see the counterexample.  Amended:
for a device handle with empty media status, no controller title or
thumbnail, no cast status, the light-icon flag unset, no application
display name, and an empty watermark, metadata() returns the complete
fixed-schema record with the no-duration sentinel as length, the default
asset as art URL, and empty title, artist and album. -/
theorem c9_amended (d : Device) (w : Option ℚ)
    (h1 : d.media_status = none) (h2 : d.mc_title = none)
    (h3 : d.mc_thumbnail = none) (h4 : d.cast_status = none)
    (h5 : d.light_icon = false) (h6 : d.app_display_name = none)
    (h7 : w = none) :
    (metadata d w).1 = ⟨get_track_id none, NO_DURATION, DEFAULT_THUMB, none,
      none, [], none, [], DEFAULT_DISC_NO, none, []⟩ ∧
    (metadata d w).2 = none := by
  subst h7
  obtain ⟨ms, cs, mt, th, app, li, yt⟩ := d
  dsimp only at h1 h2 h3 h4 h5 h6
  subst h1 h2 h3 h4 h5 h6
  exact ⟨rfl, rfl⟩

theorem c9_witness :
    (metadata devEmpty none).1 = ⟨get_track_id none, NO_DURATION,
      DEFAULT_THUMB, none, none, [], none, [], DEFAULT_DISC_NO, none, []⟩ ∧
    (metadata devEmpty none).2 = none :=
  c9_amended devEmpty none rfl rfl rfl rfl rfl rfl rfl

/-- C9 counterexample: a device with empty media status (and no
thumbnail, no cast status, light icon unset) but a present application
display name and a stale watermark yields a metadata record whose title
is not empty and whose length is not the no-duration sentinel, refuting
the claim as stated. -/
theorem c9_counterexample :
    (metadata devApp (some 5000000)).1.title ≠ none ∧
    (metadata devApp (some 5000000)).1.length ≠ NO_DURATION := by
  decide

/-- C8 (claim refuted, code bug): load, save and delete all address the
fixed global ARGS path, not the per-device path computed by
DaemonArgs.file.  Saving arguments for device A writes nothing at A's
per-device path but writes the global file; saving B afterwards clobbers
A's record, so a later load returns B's arguments regardless of
identifier.  Loading from an empty store returns None and deleting on an
empty store leaves it empty, as the claim states. -/
theorem c8_global_args_file :
    argsA.file ≠ argsB.file ∧
    DaemonArgs.save emptyFS argsA argsA.file = none ∧
    DaemonArgs.save emptyFS argsA ARGS = some argsA ∧
    DaemonArgs.load (DaemonArgs.save (DaemonArgs.save emptyFS argsA) argsB) =
      some argsB ∧
    DaemonArgs.load emptyFS = none ∧
    DaemonArgs.delete emptyFS ARGS = none :=
  ⟨by decide, by decide, by decide, by decide, rfl, by decide⟩

theorem c5_witness :
    ((3 : ℚ) > csOne.volume_level ∧
      set_volume (some csOne) 3 = some [VolCmd.up 2]) ∧
    set_volume (some csOne) ((get_volume (some csOne)).getD 0) = some [] :=
  ⟨⟨by norm_num [csOne],
      by
        have h := (c5_set_volume_directional csOne 3).1 (by norm_num [csOne])
        rw [h]
        norm_num [csOne]⟩,
    (c5_set_volume_directional csOne 0).2.2.2⟩

theorem lem_getLastD_default (l : List (List Char)) (d1 d2 : List Char)
    (h : l ≠ []) : l.getLastD d1 = l.getLastD d2 := by
  cases l with
  | nil => exact absurd rfl h
  | cons q qs =>
    rw [List.getLastD_eq_getLast?, List.getLastD_eq_getLast?]
    have hq : (q :: qs).getLast?.isSome = true :=
      List.getLast?_isSome.mpr (by simp)
    cases hv : (q :: qs).getLast? with
    | some v => simp
    | none => rw [hv] at hq; simp at hq

theorem lem_getLastD_irrel (l : List (List Char)) (x y : List Char)
    (h : l ≠ []) : (x :: l).getLastD [] = (y :: l).getLastD [] :=
  calc (x :: l).getLastD [] = l.getLastD x := List.getLastD_cons [] x l
    _ = l.getLastD y := lem_getLastD_default l x y h
    _ = (y :: l).getLastD [] := (List.getLastD_cons [] y l).symm

theorem lem_splitChar_ne_nil (a : Char) (s : List Char) :
    pySplitChar a s ≠ [] := by
  induction s with
  | nil => simp [pySplitChar]
  | cons c rest ih =>
    by_cases h : c = a
    · simp [pySplitChar, h]
    · simp only [pySplitChar, h, if_false]
      cases hs : pySplitChar a rest with
      | nil => simp
      | cons p ps => simp

theorem lem_splitChar_head (a : Char) (s : List Char) (d : List Char) :
    (pySplitChar a s).headD d = s.takeWhile (fun c => c != a) := by
  induction s generalizing d with
  | nil => simp [pySplitChar]
  | cons c rest ih =>
    by_cases h : c = a
    · subst h
      simp [pySplitChar, List.takeWhile_cons]
    · rw [List.takeWhile_cons]
      have hca : (c != a) = true := by simp [h]
      rw [hca]
      simp only [pySplitChar, h, if_false]
      cases hs : pySplitChar a rest with
      | nil => exact absurd hs (lem_splitChar_ne_nil a rest)
      | cons p ps =>
        have hp := ih []
        rw [hs] at hp
        simp at hp
        simp [hp]

theorem lem_splitChar_noOcc (a : Char) (s : List Char) (h : a ∉ s) :
    pySplitChar a s = [s] := by
  induction s with
  | nil => rfl
  | cons c rest ih =>
    have hca : c ≠ a := by
      intro hh
      exact h (by simp [hh])
    have hrest : a ∉ rest := fun hm => h (by simp [hm])
    simp only [pySplitChar, hca, if_false]
    rw [ih hrest]

theorem lem_splitChar_len2 (a : Char) (s : List Char) (h : a ∈ s) :
    2 ≤ (pySplitChar a s).length := by
  induction s with
  | nil => simp at h
  | cons c rest ih =>
    by_cases hca : c = a
    · simp only [pySplitChar, hca, if_true]
      have := lem_splitChar_ne_nil a rest
      cases hs : pySplitChar a rest with
      | nil => exact absurd hs this
      | cons p ps => simp
    · have hrest : a ∈ rest := by
        rcases List.mem_cons.mp h with h1 | h2
        · exact absurd h1.symm hca
        · exact h2
      simp only [pySplitChar, hca, if_false]
      cases hs : pySplitChar a rest with
      | nil => exact absurd hs (lem_splitChar_ne_nil a rest)
      | cons p ps =>
        have := ih hrest
        rw [hs] at this
        simp at this ⊢
        omega

theorem lem_splitChar_last (a : Char) :
    ∀ (p r : List Char), a ∉ r →
    (pySplitChar a (p ++ a :: r)).getLastD [] = r := by
  intro p
  induction p with
  | nil =>
    intro r hr
    simp only [List.nil_append, pySplitChar, if_true]
    rw [lem_splitChar_noOcc a r hr]
    rfl
  | cons c p2 ih =>
    intro r hr
    by_cases hca : c = a
    · subst hca
      simp only [List.cons_append, pySplitChar, if_true]
      rw [List.getLastD_cons]
      exact ih r hr
    · simp only [List.cons_append, pySplitChar, hca, if_false]
      have hmem : a ∈ p2 ++ a :: r := by simp
      cases hs : pySplitChar a (p2 ++ a :: r) with
      | nil => exact absurd hs (lem_splitChar_ne_nil a _)
      | cons q qs =>
        have hlen := lem_splitChar_len2 a _ hmem
        rw [hs] at hlen
        have hqs : qs ≠ [] := by
          intro hh
          rw [hh] at hlen
          simp at hlen
        rw [lem_getLastD_irrel qs (c :: q) q hqs]
        have := ih r hr
        rw [hs] at this
        exact this

theorem lem_splitPair_ne_nil (a b : Char) (s : List Char) :
    pySplitPair a b s ≠ [] := by
  rcases s with _ | ⟨c1, _ | ⟨c2, rest⟩⟩
  · simp [pySplitPair]
  · simp [pySplitPair]
  · by_cases hc : c1 = a ∧ c2 = b
    · simp [pySplitPair, hc]
    · simp only [pySplitPair, hc, if_false]
      cases hs : pySplitPair a b (c2 :: rest) with
      | nil => simp
      | cons p ps => simp

theorem lem_containsPair_mid (a b : Char) :
    ∀ (p r : List Char), containsPair a b (p ++ a :: b :: r) = true := by
  intro p
  induction p with
  | nil =>
    intro r
    simp [containsPair]
  | cons c p2 ih =>
    intro r
    cases p2 with
    | nil =>
      have h0 := ih r
      simp only [List.nil_append] at h0
      simp only [List.cons_append, List.nil_append, containsPair]
      simp [containsPair] at h0 ⊢
    | cons d p3 =>
      have h0 := ih r
      simp only [List.cons_append] at h0 ⊢
      simp only [containsPair, h0]
      simp

theorem lem_splitPair_then (a b c1 c2 : Char) (rest : List Char)
    (h : c1 = a ∧ c2 = b) :
    pySplitPair a b (c1 :: c2 :: rest) = [] :: pySplitPair a b rest := by
  obtain ⟨h1, h2⟩ := h
  subst h1 h2
  simp [pySplitPair]

theorem lem_splitPair_else (a b c1 c2 : Char) (rest : List Char)
    (h : ¬ (c1 = a ∧ c2 = b)) :
    pySplitPair a b (c1 :: c2 :: rest) =
      match pySplitPair a b (c2 :: rest) with
      | [] => [[c1]]
      | p :: ps => (c1 :: p) :: ps := by
  simp [pySplitPair, h]

theorem lem_splitPair_noOcc (a b : Char) (s : List Char)
    (h : containsPair a b s = false) : pySplitPair a b s = [s] := by
  suffices hh : ∀ (n : ℕ) (t : List Char), t.length ≤ n →
      containsPair a b t = false → pySplitPair a b t = [t] from
    hh s.length s le_rfl h
  intro n
  induction n with
  | zero =>
    intro t ht _
    have : t = [] := List.length_eq_zero.mp (Nat.le_zero.mp ht)
    subst this
    rfl
  | succ m ih =>
    intro t ht hc
    rcases t with _ | ⟨c1, _ | ⟨c2, rest⟩⟩
    · rfl
    · rfl
    · simp only [containsPair, Bool.or_eq_false_iff] at hc
      have hcond : ¬ (c1 = a ∧ c2 = b) := by
        intro hh
        have := hc.1
        rw [hh.1, hh.2] at this
        simp at this
      have hlen : (c2 :: rest).length ≤ m := by
        simp at ht ⊢
        omega
      simp only [pySplitPair, hcond, if_false]
      rw [ih (c2 :: rest) hlen hc.2]

theorem lem_splitPair_len2 (a b : Char) (s : List Char)
    (h : containsPair a b s = true) : 2 ≤ (pySplitPair a b s).length := by
  suffices hh : ∀ (n : ℕ) (t : List Char), t.length ≤ n →
      containsPair a b t = true → 2 ≤ (pySplitPair a b t).length from
    hh s.length s le_rfl h
  intro n
  induction n with
  | zero =>
    intro t ht hc
    have : t = [] := List.length_eq_zero.mp (Nat.le_zero.mp ht)
    subst this
    simp [containsPair] at hc
  | succ m ih =>
    intro t ht hc
    rcases t with _ | ⟨c1, _ | ⟨c2, rest⟩⟩
    · simp [containsPair] at hc
    · simp [containsPair] at hc
    · by_cases hcond : c1 = a ∧ c2 = b
      · simp only [pySplitPair, hcond, if_true]
        cases hs : pySplitPair a b rest with
        | nil => exact absurd hs (lem_splitPair_ne_nil a b rest)
        | cons p ps => simp
      · have hc2 : containsPair a b (c2 :: rest) = true := by
          simp only [containsPair, Bool.or_eq_true] at hc
          rcases hc with h1 | h2
          · exact absurd (by simpa using h1) hcond
          · exact h2
        have hlen : (c2 :: rest).length ≤ m := by
          simp at ht ⊢
          omega
        have hrec := ih (c2 :: rest) hlen hc2
        simp only [pySplitPair, hcond, if_false]
        cases hs : pySplitPair a b (c2 :: rest) with
        | nil => exact absurd hs (lem_splitPair_ne_nil a b _)
        | cons p ps =>
          rw [hs] at hrec
          simp at hrec ⊢
          omega

theorem lem_splitPair_last_base (a b : Char) (t : List Char)
    (ht : containsPair a b t = false) :
    (pySplitPair a b (a :: b :: t)).getLastD [] = t := by
  rw [lem_splitPair_then a b a b t ⟨rfl, rfl⟩, lem_splitPair_noOcc a b t ht]
  simp [List.getLastD_cons, List.getLastD]

theorem lem_splitPair_last (a b : Char) (hab : a ≠ b) (p r : List Char)
    (hr : containsPair a b r = false) :
    (pySplitPair a b (p ++ a :: b :: r)).getLastD [] = r := by
  suffices hh : ∀ (n : ℕ) (q t : List Char), q.length ≤ n →
      containsPair a b t = false →
      (pySplitPair a b (q ++ a :: b :: t)).getLastD [] = t from
    hh p.length p r le_rfl hr
  intro n
  induction n with
  | zero =>
    intro q t hq ht
    have : q = [] := List.length_eq_zero.mp (Nat.le_zero.mp hq)
    subst this
    simp only [List.nil_append]
    exact lem_splitPair_last_base a b t ht
  | succ m ih =>
    intro q t hq ht
    rcases q with _ | ⟨c, _ | ⟨d, q3⟩⟩
    · simp only [List.nil_append]
      exact lem_splitPair_last_base a b t ht
    · have hcond : ¬ (c = a ∧ a = b) := fun hh => hab hh.2
      simp only [List.cons_append, List.nil_append]
      rw [lem_splitPair_else a b c a (b :: t) hcond]
      rw [lem_splitPair_then a b a b t ⟨rfl, rfl⟩,
        lem_splitPair_noOcc a b t ht]
      simp [List.getLastD_cons, List.getLastD]
    · by_cases hcond : c = a ∧ d = b
      · simp only [List.cons_append]
        rw [lem_splitPair_then a b c d (q3 ++ a :: b :: t) hcond]
        rw [List.getLastD_cons]
        have hlen : q3.length ≤ m := by
          simp at hq ⊢
          omega
        exact ih q3 t hlen ht
      · simp only [List.cons_append]
        rw [lem_splitPair_else a b c d (q3 ++ a :: b :: t) hcond]
        have hlen : (d :: q3).length ≤ m := by
          simp at hq ⊢
          omega
        have hlast := ih (d :: q3) t hlen ht
        have hmem : containsPair a b ((d :: q3) ++ a :: b :: t) = true :=
          lem_containsPair_mid a b (d :: q3) t
        have hl2 := lem_splitPair_len2 a b _ hmem
        simp only [List.cons_append] at hlast hl2
        cases hs : pySplitPair a b (d :: (q3 ++ a :: b :: t)) with
        | nil => exact absurd hs (lem_splitPair_ne_nil a b _)
        | cons x xs =>
          rw [hs] at hlast hl2
          have hxs : xs ≠ [] := by
            intro hh
            rw [hh] at hl2
            simp at hl2
          show ((c :: x) :: xs).getLastD [] = t
          rw [lem_getLastD_irrel xs (c :: x) x hxs]
          exact hlast

theorem lem_containsSub_single (x : Char) (s : List Char) :
    containsSub [x] s = true ↔ x ∈ s := by
  induction s with
  | nil => simp [containsSub, List.isEmpty]
  | cons c rest ih =>
    simp only [containsSub, Bool.or_eq_true, List.mem_cons]
    constructor
    · rintro (h | h)
      · left
        simpa [List.isPrefixOf] using h
      · right
        exact ih.mp h
    · rintro (h | h)
      · left
        simp [List.isPrefixOf, h]
      · right
        exact ih.mpr h

theorem lem_takeWhile_no (x : Char) (s : List Char) (h : x ∉ s) :
    s.takeWhile (fun c => c != x) = s := by
  induction s with
  | nil => rfl
  | cons c rest ih =>
    have hcx : c ≠ x := by
      intro hh
      exact h (by simp [hh])
    have hb : (c != x) = true := bne_iff_ne.mpr hcx
    rw [List.takeWhile_cons, hb]
    simp [ih (fun hm => h (by simp [hm]))]

theorem lem_isPrefixOf_map (f : Char → Char) :
    ∀ (sub s : List Char), sub.isPrefixOf s = true →
    (sub.map f).isPrefixOf (s.map f) = true := by
  intro sub
  induction sub with
  | nil =>
    intro s _
    simp [List.isPrefixOf]
  | cons a as ih =>
    intro s h
    cases s with
    | nil => simp [List.isPrefixOf] at h
    | cons b bs =>
      simp only [List.map_cons]
      simp only [List.isPrefixOf] at h ⊢
      simp only [Bool.and_eq_true, beq_iff_eq] at h ⊢
      exact ⟨by rw [h.1], ih bs h.2⟩

theorem lem_containsSub_map (f : Char → Char) (sub : List Char) :
    ∀ (s : List Char), containsSub sub s = true →
    containsSub (sub.map f) (s.map f) = true := by
  intro s
  induction s with
  | nil =>
    intro h
    have hsub : sub = [] := by
      simpa [containsSub, List.isEmpty_iff] using h
    subst hsub
    simp [containsSub, List.isEmpty]
  | cons c rest ih =>
    intro h
    simp only [containsSub, Bool.or_eq_true] at h
    rcases h with h | h
    · have hp := lem_isPrefixOf_map f sub (c :: rest) h
      simp only [List.map_cons] at hp
      simp only [List.map_cons, containsSub, Bool.or_eq_true]
      left
      exact hp
    · simp only [List.map_cons, containsSub, Bool.or_eq_true]
      right
      exact ih h

theorem lem_is_youtube_of_long (u : String)
    (h : strContains u YT_LONG = true) : is_youtube u = true := by
  have h2 := lem_containsSub_map Char.toLower YT_LONG.toList u.toList h
  have e : YT_LONG.toList.map Char.toLower = YT_LONG.toList := by decide
  rw [e] at h2
  unfold is_youtube
  rw [Bool.or_eq_true]
  left
  exact h2

theorem lem_is_youtube_of_short (u : String)
    (h : strContains u YT_SHORT = true) : is_youtube u = true := by
  have h2 := lem_containsSub_map Char.toLower YT_SHORT.toList u.toList h
  have e : YT_SHORT.toList.map Char.toLower = YT_SHORT.toList := by decide
  rw [e] at h2
  unfold is_youtube
  rw [Bool.or_eq_true]
  right
  exact h2

/-- C3 counterexample: the claim's own short-form example fails on the
code: extraction for the short-form host takes everything after the last
slash and truncates only at an ampersand, so the query suffix survives
and the result is not the bare id. -/
theorem c3_counterexample :
    get_video_id "https://youtu.be/abc123?t=5" ≠ some "abc123" := by
  decide

/-- C3 (corrected): for a URI containing the long-form host fragment the
extractor returns everything after the LAST (not first) v-equals marker,
truncated at the first ampersand; for a URI containing only the
short-form fragment it returns everything after the last slash, truncated
at the first ampersand; for a URI matching neither (case-insensitive)
pattern the provider test is false and the extractor returns None.  The
short-form example returns the id with its query suffix attached, and the
long-form example returns the bare id. -/
theorem c3_amended :
    get_video_id "https://youtu.be/abc123?t=5" = some "abc123?t=5" ∧
    get_video_id "https://www.youtube.com/watch?v=abc123&list=xyz" =
      some "abc123" ∧
    (∀ uri : String, is_youtube uri = false → get_video_id uri = none) ∧
    (∀ p r : List Char, containsPair 'v' '=' r = false →
        strContains (String.mk (p ++ 'v' :: '=' :: r)) YT_LONG = true →
        get_video_id (String.mk (p ++ 'v' :: '=' :: r)) =
          some (String.mk (r.takeWhile (fun c => c != '&')))) ∧
    (∀ p r : List Char, ('/' : Char) ∉ r →
        strContains (String.mk (p ++ '/' :: r)) YT_LONG = false →
        strContains (String.mk (p ++ '/' :: r)) YT_SHORT = true →
        get_video_id (String.mk (p ++ '/' :: r)) =
          some (String.mk (r.takeWhile (fun c => c != '&')))) := by
  refine ⟨by decide, by decide, ?_, ?_, ?_⟩
  · intro uri h
    simp [get_video_id, h]
  · intro p r hr hlong
    have hyt := lem_is_youtube_of_long (String.mk (p ++ 'v' :: '=' :: r)) hlong
    have htl : (String.mk (p ++ 'v' :: '=' :: r)).toList =
        p ++ 'v' :: '=' :: r := rfl
    unfold get_video_id
    rw [hyt, hlong, htl]
    rw [lem_splitPair_last 'v' '=' (by decide) p r hr]
    simp only [Bool.true_eq_false, if_false, ite_true, if_true]
    by_cases hin : ('&' : Char) ∈ r
    · have hne : r ≠ [] := List.ne_nil_of_mem hin
      have hcs : containsSub ['&'] r = true :=
        (lem_containsSub_single '&' r).mpr hin
      rw [if_pos ⟨hne, hcs⟩, lem_splitChar_head]
    · have hcs : ¬ containsSub ['&'] r = true := fun hh =>
        hin ((lem_containsSub_single '&' r).mp hh)
      rw [if_neg (fun hh => hcs hh.2), lem_takeWhile_no '&' r hin]
  · intro p r hr hlongf hshort
    have hyt := lem_is_youtube_of_short (String.mk (p ++ '/' :: r)) hshort
    have htl : (String.mk (p ++ '/' :: r)).toList = p ++ '/' :: r := rfl
    unfold get_video_id
    rw [hyt, hlongf, hshort, htl]
    rw [lem_splitChar_last '/' p r hr]
    simp only [Bool.true_eq_false, Bool.false_eq_true, if_false, ite_true,
      if_true]
    by_cases hin : ('&' : Char) ∈ r
    · have hne : r ≠ [] := List.ne_nil_of_mem hin
      have hcs : containsSub ['&'] r = true :=
        (lem_containsSub_single '&' r).mpr hin
      rw [if_pos ⟨hne, hcs⟩, lem_splitChar_head]
    · have hcs : ¬ containsSub ['&'] r = true := fun hh =>
        hin ((lem_containsSub_single '&' r).mp hh)
      rw [if_neg (fun hh => hcs hh.2), lem_takeWhile_no '&' r hin]

theorem c3_witness :
    (is_youtube "mailto:someone@example.org" = false ∧
      get_video_id "mailto:someone@example.org" = none) ∧
    (containsPair 'v' '=' (String.toList "xyz&t") = false ∧
      strContains (String.mk (String.toList "https://youtube.com/watch?" ++
        'v' :: '=' :: String.toList "xyz&t")) YT_LONG = true ∧
      get_video_id (String.mk (String.toList "https://youtube.com/watch?" ++
          'v' :: '=' :: String.toList "xyz&t")) =
        some (String.mk ((String.toList "xyz&t").takeWhile
          (fun c => c != '&')))) :=
  ⟨⟨by decide, c3_amended.2.2.1 "mailto:someone@example.org" (by decide)⟩,
    by decide, by decide,
    c3_amended.2.2.2.1 (String.toList "https://youtube.com/watch?")
      (String.toList "xyz&t") (by decide) (by decide)⟩

/-- C10: with no cast status, get_volume returns None (not zero) and
every set_volume call fails at the delta computation with no command
issued (outcome None); with a cast status present, set_volume always
completes with a command list. -/
theorem c10_volume_requires_cast_status :
    get_volume none = none ∧
    (∀ v : ℚ, set_volume none v = none) ∧
    (∀ (c : CastStatus) (v : ℚ), (set_volume (some c) v).isSome = true) := by
  refine ⟨rfl, fun v => rfl, fun c v => ?_⟩
  show (if v - c.volume_level > NO_DELTA then some [VolCmd.up (v - c.volume_level)]
    else if v - c.volume_level < NO_DELTA then
      some [VolCmd.down |v - c.volume_level|]
    else some ([] : List VolCmd)).isSome = true
  split
  · rfl
  · split
    · rfl
    · rfl

end CastControl
